import Mathlib

set_option maxHeartbeats 1000000

namespace D3Gantt

/-!
Shallow embedding of the d3-gantt widget (repository scholtzan/d3-gantt):
the configuration-merge and time-domain-inference logic of `init`, and the
layout computations (scales, dimensions, bar geometry) of the chart.

Untyped configuration trees model the JavaScript option objects handled by
`d3.ganttDiagram.util.extend` (src/src/util.js); typed parameter records
model the resolved configuration consumed by the layout code of
`d3.ganttChart` (src/unnamed/part_001).
-/

/-- Untyped JavaScript value as stored in a configuration object.
Numbers, strings, booleans and Date timestamps (milliseconds) are scalars;
`obj` holds a nested plain object as an insertion-ordered key-value list;
`ref` is a reference (address) into a separate heap of mutable arrays.
Arrays are the only values the widget mutates through a shared reference
(`init` sorts `params.data` in place), so only arrays are given identity;
plain objects are copied structurally. -/
inductive JVal where
  | num : Int → JVal
  | str : String → JVal
  | bool : Bool → JVal
  | time : Int → JVal
  | ref : Nat → JVal
  | obj : List (String × JVal) → JVal
deriving Repr

/-- A JavaScript plain object: its own enumerable properties in insertion
order.  A well-formed object has no duplicate keys. -/
abbrev JObj := List (String × JVal)

/-- Property read `o[k]`: value of the first (in a well-formed object the
only) entry with key `k`, or `none` for JavaScript `undefined`. -/
def jlookup (o : JObj) (k : String) : Option JVal :=
  match o with
  | [] => none
  | (k₁, v) :: rest => if k₁ = k then some v else jlookup rest k

/-- Property write `o[k] = v`: overwrite the existing entry for `k` in
place, or append a new entry (JavaScript assignment keeps the insertion
position of an existing key). -/
def jset (o : JObj) (k : String) (v : JVal) : JObj :=
  match o with
  | [] => [(k, v)]
  | (k₁, v₁) :: rest => if k₁ = k then (k, v) :: rest else (k₁, v₁) :: jset rest k v

/-- Value semantics of `d3.ganttDiagram.util.extend` (src/src/util.js
lines 9-21): `result = \x7b\x7d`, then `for (a1 in obj1) result[a1] = obj1[a1]`,
then `for (a2 in obj2) result[a2] = obj2[a2]`, and return `result`.
The `for`-`in` loops enumerate each object's own keys in insertion order and
read the corresponding value; neither `obj1` nor `obj2` is assigned inside
the loops, so iterating their key-value entries is an exact rendering. -/
def extend (obj1 obj2 : JObj) : JObj :=
  let result : JObj := []
  let result := obj1.foldl (fun r kv => jset r kv.1 kv.2) result
  obj2.foldl (fun r kv => jset r kv.1 kv.2) result

/-- Path lookup inside a value: `jget v [k1, k2]` is `v.k1.k2`, `none` when
any step is missing or not an object. -/
def jget (v : JVal) (path : List String) : Option JVal :=
  match path, v with
  | [], _ => some v
  | k :: rest, .obj es =>
    match jlookup es k with
    | some v₁ => jget v₁ rest
    | none => none
  | _ :: _, _ => none

@[simp]
theorem jlookup_nil (k : String) : jlookup [] k = none := rfl

theorem jlookup_jset_self (o : JObj) (k : String) (v : JVal) :
    jlookup (jset o k v) k = some v := by
  induction o with
  | nil => simp [jset, jlookup]
  | cons hd tl ih =>
    by_cases h : hd.1 = k
    · simp [jset, h, jlookup]
    · simp [jset, h, jlookup, ih]

theorem jlookup_jset_ne (o : JObj) (k k₁ : String) (v : JVal) (h : k₁ ≠ k) :
    jlookup (jset o k v) k₁ = jlookup o k₁ := by
  induction o with
  | nil => simp [jset, jlookup, Ne.symm h]
  | cons hd tl ih =>
    by_cases hh : hd.1 = k
    · simp [jset, hh, jlookup, Ne.symm h, hh ▸ Ne.symm h]
    · simp only [jset, hh, if_false, jlookup]
      by_cases hk : hd.1 = k₁ <;> simp [hk, ih]

theorem jlookup_append (a b : JObj) (k : String) :
    jlookup (a ++ b) k =
      match jlookup a k with
      | some v => some v
      | none => jlookup b k := by
  induction a with
  | nil => simp [jlookup]
  | cons hd tl ih =>
    by_cases h : hd.1 = k <;> simp [jlookup, h, ih]

theorem jlookup_eq_none_of_not_mem (o : JObj) (k : String)
    (h : k ∉ o.map Prod.fst) : jlookup o k = none := by
  induction o with
  | nil => rfl
  | cons hd tl ih =>
    simp only [List.map_cons, List.mem_cons] at h
    push_neg at h
    simp [jlookup, Ne.symm h.1, ih h.2]

/-- Folding JavaScript property writes over an entry list: the resulting
object answers lookups with the last written value for the key, falling
back to the initial accumulator. -/
theorem jlookup_foldl (es : JObj) (r : JObj) (k : String) :
    jlookup (es.foldl (fun acc kv => jset acc kv.1 kv.2) r) k =
      match jlookup es.reverse k with
      | some v => some v
      | none => jlookup r k := by
  induction es generalizing r with
  | nil => simp [jlookup]
  | cons hd tl ih =>
    simp only [List.foldl_cons, List.reverse_cons, ih, jlookup_append]
    by_cases h : hd.1 = k
    · subst h
      cases htl : jlookup tl.reverse hd.1 <;>
        simp [jlookup, jlookup_jset_self]
    · cases htl : jlookup tl.reverse k <;>
        simp [jlookup, h, jlookup_jset_ne _ _ _ _ (fun h₁ => h h₁.symm)]

theorem jlookup_reverse_of_nodup (o : JObj) (k : String)
    (h : (o.map Prod.fst).Nodup) : jlookup o.reverse k = jlookup o k := by
  induction o with
  | nil => rfl
  | cons hd tl ih =>
    simp only [List.map_cons, List.nodup_cons] at h
    by_cases hk : hd.1 = k
    · subst hk
      rw [List.reverse_cons, jlookup_append,
        jlookup_eq_none_of_not_mem tl.reverse _ (by simpa using h.1)]
      simp [jlookup]
    · rw [List.reverse_cons, jlookup_append, ih h.2]
      cases htl : jlookup tl k <;> simp [jlookup, hk, htl]

/-- Lookup in the merged object: the override's value when the key is
present there, otherwise the default's value.  This is the complete
top-level description of `util.extend`. -/
theorem jlookup_extend (obj1 obj2 : JObj) (k : String)
    (h1 : (obj1.map Prod.fst).Nodup) (h2 : (obj2.map Prod.fst).Nodup) :
    jlookup (extend obj1 obj2) k =
      match jlookup obj2 k with
      | some v => some v
      | none => jlookup obj1 k := by
  unfold extend
  rw [jlookup_foldl, jlookup_foldl, jlookup_reverse_of_nodup _ _ h1,
    jlookup_reverse_of_nodup _ _ h2]
  cases jlookup obj2 k <;> cases jlookup obj1 k <;> simp

/-! ### Heap semantics of util.extend

For the frame property (no mutation of the arguments, freshly allocated
result) the function is re-run over an explicit heap of objects: addresses
are indices, `result = \x7b\x7d` allocates a fresh cell at the end, and every
property write goes through the heap. -/

/-- Heap of JavaScript objects; an address is an index into the list. -/
abbrev ObjHeap := List JObj

/-- Heap-level property write `h[a][k] = v`. -/
def writeKeyH (h : ObjHeap) (a : Nat) (k : String) (v : JVal) : ObjHeap :=
  h.set a (jset (h.getD a []) k v)

/-- Heap semantics of `util.extend(obj1, obj2)` (src/src/util.js lines
9-21): allocate `result = \x7b\x7d` at a fresh address, copy the entries of the
object at `o1` into it, then the entries of the object at `o2`, and return
the address of `result`.  The loops read the argument objects at loop
entry; neither is written during the call, so the snapshot read is exact. -/
def extendH (h : ObjHeap) (o1 o2 : Nat) : ObjHeap × Nat :=
  let r := h.length
  let h₁ := h ++ [[]]
  let h₂ := (h₁.getD o1 []).foldl (fun hh kv => writeKeyH hh r kv.1 kv.2) h₁
  let h₃ := (h₂.getD o2 []).foldl (fun hh kv => writeKeyH hh r kv.1 kv.2) h₂
  (h₃, r)

theorem writeKeyH_frame (h : ObjHeap) (a b : Nat) (k : String) (v : JVal)
    (hab : b ≠ a) : (writeKeyH h a k v)[b]? = h[b]? := by
  unfold writeKeyH
  exact List.getElem?_set_ne (fun hc => hab hc.symm)

theorem foldl_writeKeyH_frame (es : List (String × JVal)) (h : ObjHeap)
    (a b : Nat) (hab : b ≠ a) :
    (es.foldl (fun hh kv => writeKeyH hh a kv.1 kv.2) h)[b]? = h[b]? := by
  induction es generalizing h with
  | nil => rfl
  | cons hd tl ih => rw [List.foldl_cons, ih, writeKeyH_frame _ _ _ _ _ hab]

/-! ### Events and the in-place initialisation of the time domain -/

/-- One data point of the chart (an `elem` of `params.data`).  The source
field `end` is a reserved word in Lean and is rendered `endT`; timestamps
are Date values in milliseconds. -/
structure Event where
  activity : String := ""
  text : String := ""
  start : Int := 0
  endT : Int := 0
  fillColor : Option String := none
  strokeColor : Option String := none
deriving DecidableEq, Repr, Inhabited

/-- Heap of JavaScript arrays of events; `JVal.ref` addresses point here. -/
abbrev ArrHeap := List (List Event)

/-- In-place `this.params.data.sort(function(a, b) \x7b return a.end - b.end; \x7d)`:
a comparison sort ascending by `end`.  `Array.prototype.sort` is any
comparison sort for this comparator; it is modelled by merge sort. -/
def sortByEnd (l : List Event) : List Event :=
  l.mergeSort (fun a b => a.endT ≤ b.endT)

/-- In-place `this.params.data.sort(function(a, b) \x7b return a.start - b.start; \x7d)`. -/
def sortByStart (l : List Event) : List Event :=
  l.mergeSort (fun a b => a.start ≤ b.start)

/-- The `init` function shared by d3.ganttChart (src/unnamed/part_001 lines
84-102) and d3.ganttDiagram (src/unnamed/part_000 lines 57-75, with the
repository's own `util.extend` as the merge): merge the user parameters
over the defaults, then, when `params.data` is non-empty, sort the data
array in place by `end` and take the last element's `end` as `endTime`,
then sort it in place by `start` and take the first element's `start` as
`startTime`.  The merged configuration holds the data array by reference,
so both sorts mutate the array in the heap.  The fallthrough branch (no
array-valued `data` key) cannot be reached from the real defaults, which
always provide a `data` array; it is treated like the empty-data branch. -/
def init (h : ArrHeap) (defaults userParams : JObj) : ArrHeap × JObj :=
  let p := extend defaults userParams
  match jlookup p "data" with
  | some (.ref a) =>
    let arr := h.getD a []
    if arr.length > 0 then
      let s₁ := sortByEnd arr
      let h₁ := h.set a s₁
      let p₁ := jset p "endTime" (.time (s₁.getLastD default).endT)
      let s₂ := sortByStart s₁
      let h₂ := h₁.set a s₂
      let p₂ := jset p₁ "startTime" (.time (s₂.headD default).start)
      (h₂, p₂)
    else (h, p)
  | _ => (h, p)

theorem headD_mem {α : Type} (l : List α) (d : α) (h : l ≠ []) :
    l.headD d ∈ l := by
  cases l with
  | nil => exact absurd rfl h
  | cons hd tl => simp

theorem getLastD_mem {α : Type} (l : List α) (d : α) (h : l ≠ []) :
    l.getLastD d ∈ l := by
  induction l generalizing d with
  | nil => exact absurd rfl h
  | cons hd tl ih =>
    rw [List.getLastD_cons]
    cases tl with
    | nil => simp [List.getLastD_nil]
    | cons hd₁ tl₁ => exact List.mem_cons_of_mem _ (ih hd (by simp))

theorem pairwise_le_getLastD {α : Type} (f : α → Int) (l : List α) (d : α)
    (hp : l.Pairwise (fun a b => f a ≤ f b)) :
    ∀ x ∈ l, f x ≤ f (l.getLastD d) := by
  induction l generalizing d with
  | nil => intro x hx; exact absurd hx (by simp)
  | cons hd tl ih =>
    rw [List.pairwise_cons] at hp
    intro x hx
    rw [List.getLastD_cons]
    rcases List.mem_cons.1 hx with hx | hx
    · subst hx
      cases tl with
      | nil => simp [List.getLastD_nil]
      | cons hd₁ tl₁ => exact hp.1 _ (getLastD_mem _ _ (by simp))
    · exact ih hd hp.2 x hx

theorem pairwise_headD_le {α : Type} (f : α → Int) (l : List α) (d : α)
    (hp : l.Pairwise (fun a b => f a ≤ f b)) :
    ∀ x ∈ l, f (l.headD d) ≤ f x := by
  cases l with
  | nil => intro x hx; exact absurd hx (by simp)
  | cons hd tl =>
    rw [List.pairwise_cons] at hp
    intro x hx
    rcases List.mem_cons.1 hx with hx | hx
    · subst hx; simp
    · simpa using hp.1 x hx

theorem sortByEnd_perm (l : List Event) : List.Perm (sortByEnd l) l :=
  List.mergeSort_perm l _

theorem sortByStart_perm (l : List Event) : List.Perm (sortByStart l) l :=
  List.mergeSort_perm l _

theorem sortByEnd_sorted (l : List Event) :
    (sortByEnd l).Pairwise (fun a b => a.endT ≤ b.endT) := by
  have h := @List.sorted_mergeSort Event (fun a b => decide (a.endT ≤ b.endT))
    (fun a b c hab hbc => by
      simp only [decide_eq_true_eq] at *; omega)
    (fun a b => by
      simp only [Bool.or_eq_true, decide_eq_true_eq]; omega) l
  exact h.imp (fun hab => by simpa using hab)

theorem sortByStart_sorted (l : List Event) :
    (sortByStart l).Pairwise (fun a b => a.start ≤ b.start) := by
  have h := @List.sorted_mergeSort Event (fun a b => decide (a.start ≤ b.start))
    (fun a b c hab hbc => by
      simp only [decide_eq_true_eq] at *; omega)
    (fun a b => by
      simp only [Bool.or_eq_true, decide_eq_true_eq]; omega) l
  exact h.imp (fun hab => by simpa using hab)

/-- Unfolding of `init` in the non-empty-data case. -/
theorem init_eq_of_data (h : ArrHeap) (d p : JObj) (a : Nat) (l : List Event)
    (hdata : jlookup (extend d p) "data" = some (.ref a))
    (hl : h.getD a [] = l) (hne : l ≠ []) :
    init h d p =
      ((h.set a (sortByEnd l)).set a (sortByStart (sortByEnd l)),
       jset (jset (extend d p) "endTime"
              (.time ((sortByEnd l).getLastD default).endT))
            "startTime"
            (.time ((sortByStart (sortByEnd l)).headD default).start)) := by
  simp only [init, hdata, hl]
  rw [if_pos (gt_iff_lt.mpr (List.length_pos.mpr hne))]

/-- Unfolding of `init` in the empty-data case: the merged configuration
(and with it any configured or default domain) is returned unchanged. -/
theorem init_eq_of_empty (h : ArrHeap) (d p : JObj) (a : Nat)
    (hdata : jlookup (extend d p) "data" = some (.ref a))
    (hl : h.getD a [] = []) :
    init h d p = (h, extend d p) := by
  simp only [init, hdata, hl]
  simp

/-- The inferred start bound is the least event start, witnessed in the
list. -/
theorem init_start_char (l : List Event) (hne : l ≠ []) :
    ((sortByStart (sortByEnd l)).headD default).start ∈ l.map Event.start ∧
      ∀ ev ∈ l, ((sortByStart (sortByEnd l)).headD default).start ≤ ev.start := by
  have hperm : List.Perm (sortByStart (sortByEnd l)) l :=
    (sortByStart_perm _).trans (sortByEnd_perm l)
  have hne' : sortByStart (sortByEnd l) ≠ [] := by
    intro hcon
    exact hne (List.Perm.eq_nil (hcon ▸ hperm).symm)
  constructor
  · exact List.mem_map_of_mem _ (hperm.mem_iff.1 (headD_mem _ _ hne'))
  · intro ev hev
    exact pairwise_headD_le Event.start _ default (sortByStart_sorted _) ev
      (hperm.mem_iff.2 hev)

/-- The inferred end bound is the greatest event end, witnessed in the
list. -/
theorem init_end_char (l : List Event) (hne : l ≠ []) :
    ((sortByEnd l).getLastD default).endT ∈ l.map Event.endT ∧
      ∀ ev ∈ l, ev.endT ≤ ((sortByEnd l).getLastD default).endT := by
  have hperm : List.Perm (sortByEnd l) l := sortByEnd_perm l
  have hne' : sortByEnd l ≠ [] := by
    intro hcon
    exact hne (List.Perm.eq_nil (hcon ▸ hperm).symm)
  constructor
  · exact List.mem_map_of_mem _ (hperm.mem_iff.1 (getLastD_mem _ _ hne'))
  · intro ev hev
    exact pairwise_le_getLastD Event.endT _ default (sortByEnd_sorted _) ev
      (hperm.mem_iff.2 hev)

/-- Lookups of the domain keys after the two writes of `init`. -/
theorem init_domain_lookup (h : ArrHeap) (d p : JObj) (a : Nat) (l : List Event)
    (hdata : jlookup (extend d p) "data" = some (.ref a))
    (hl : h.getD a [] = l) (hne : l ≠ []) :
    jlookup (init h d p).2 "startTime" =
        some (.time ((sortByStart (sortByEnd l)).headD default).start) ∧
      jlookup (init h d p).2 "endTime" =
        some (.time ((sortByEnd l).getLastD default).endT) := by
  rw [init_eq_of_data h d p a l hdata hl hne]
  refine ⟨jlookup_jset_self _ _ _, ?_⟩
  rw [jlookup_jset_ne _ _ _ _ (by decide), jlookup_jset_self]

/-! ### Claims about the configuration merge and init -/

/-- C1: for every non-empty event list, `init` sets the resolved domain to
(min of all event start timestamps, max of all event end timestamps): the
inferred `startTime` is an event start and a lower bound of all starts, the
inferred `endTime` is an event end and an upper bound of all ends; the
result is the same for every permutation of the input event list; and for
the empty list the merged (default or explicit) configuration, and with it
its domain, is kept unchanged. -/
theorem init_inferTimeDomain_min_max (h : ArrHeap) (d p : JObj) (a : Nat)
    (l : List Event) (hdata : jlookup (extend d p) "data" = some (.ref a))
    (hl : h.getD a [] = l) (hne : l ≠ []) :
    ∃ s e : Int,
      jlookup (init h d p).2 "startTime" = some (.time s) ∧
      jlookup (init h d p).2 "endTime" = some (.time e) ∧
      s ∈ l.map Event.start ∧ (∀ ev ∈ l, s ≤ ev.start) ∧
      e ∈ l.map Event.endT ∧ (∀ ev ∈ l, ev.endT ≤ e) ∧
      (∀ (h₁ : ArrHeap) (l₁ : List Event), h₁.getD a [] = l₁ →
        List.Perm l₁ l →
        jlookup (init h₁ d p).2 "startTime" = some (.time s) ∧
        jlookup (init h₁ d p).2 "endTime" = some (.time e)) ∧
      (∀ (h₀ : ArrHeap) (d₀ p₀ : JObj) (a₀ : Nat),
        jlookup (extend d₀ p₀) "data" = some (.ref a₀) →
        h₀.getD a₀ [] = [] → (init h₀ d₀ p₀).2 = extend d₀ p₀) := by
  obtain ⟨hs, he⟩ := init_domain_lookup h d p a l hdata hl hne
  obtain ⟨hsm, hsb⟩ := init_start_char l hne
  obtain ⟨hem, heb⟩ := init_end_char l hne
  refine ⟨_, _, hs, he, hsm, hsb, hem, heb, ?_, ?_⟩
  · intro h₁ l₁ hl₁ hperm
    have hne₁ : l₁ ≠ [] := by
      intro hcon
      subst hcon
      exact hne hperm.symm.eq_nil
    obtain ⟨hs₁, he₁⟩ := init_domain_lookup h₁ d p a l₁ hdata hl₁ hne₁
    obtain ⟨hsm₁, hsb₁⟩ := init_start_char l₁ hne₁
    obtain ⟨hem₁, heb₁⟩ := init_end_char l₁ hne₁
    obtain ⟨evs, hevs, hevs'⟩ := List.mem_map.1 hsm
    obtain ⟨evs₁, hevs₁, hevs₁'⟩ := List.mem_map.1 hsm₁
    obtain ⟨eve, heve, heve'⟩ := List.mem_map.1 hem
    obtain ⟨eve₁, heve₁, heve₁'⟩ := List.mem_map.1 hem₁
    have hseq : ((sortByStart (sortByEnd l₁)).headD default).start =
        ((sortByStart (sortByEnd l)).headD default).start := by
      apply le_antisymm
      · exact hevs' ▸ hsb₁ evs (hperm.mem_iff.2 hevs)
      · exact hevs₁' ▸ hsb evs₁ (hperm.mem_iff.1 hevs₁)
    have heeq : ((sortByEnd l₁).getLastD default).endT =
        ((sortByEnd l).getLastD default).endT := by
      apply le_antisymm
      · exact heve₁' ▸ heb eve₁ (hperm.mem_iff.1 heve₁)
      · exact heve' ▸ heb₁ eve (hperm.mem_iff.2 heve)
    exact ⟨hseq ▸ hs₁, heeq ▸ he₁⟩
  · intro h₀ d₀ p₀ a₀ hdata₀ hl₀
    rw [init_eq_of_empty h₀ d₀ p₀ a₀ hdata₀ hl₀]

/-- Concrete inputs for the C1 witness: three events with starts 9, 7, 8
and ends 17, 15, 16. -/
def dataC1 : List Event :=
  [{ activity := "John", start := 9, endT := 17 },
   { activity := "Jane", start := 7, endT := 15 },
   { activity := "Bob", start := 8, endT := 16 }]

def defaultsC1 : JObj :=
  [("data", .ref 0), ("startTime", .time 0), ("endTime", .time 0)]

/-- Witness for C1 at a concrete heap and configuration. -/
theorem init_inferTimeDomain_min_max_witness :
    ∃ s e : Int,
      jlookup (init [dataC1] defaultsC1 []).2 "startTime" = some (.time s) ∧
      jlookup (init [dataC1] defaultsC1 []).2 "endTime" = some (.time e) ∧
      s ∈ dataC1.map Event.start ∧ (∀ ev ∈ dataC1, s ≤ ev.start) ∧
      e ∈ dataC1.map Event.endT ∧ (∀ ev ∈ dataC1, ev.endT ≤ e) ∧
      (∀ (h₁ : ArrHeap) (l₁ : List Event), h₁.getD 0 [] = l₁ →
        List.Perm l₁ dataC1 →
        jlookup (init h₁ defaultsC1 []).2 "startTime" = some (.time s) ∧
        jlookup (init h₁ defaultsC1 []).2 "endTime" = some (.time e)) ∧
      (∀ (h₀ : ArrHeap) (d₀ p₀ : JObj) (a₀ : Nat),
        jlookup (extend d₀ p₀) "data" = some (.ref a₀) →
        h₀.getD a₀ [] = [] → (init h₀ d₀ p₀).2 = extend d₀ p₀) :=
  init_inferTimeDomain_min_max [dataC1] defaultsC1 [] 0 dataC1 rfl rfl
    (by decide)

/-- C2 counterexample: the repository's own merge, `util.extend`, is not
deep.  With defaults `D = \x7byAxis: \x7bwidth: 15, dynamicHeight: true\x7d\x7d` and
overrides `O = \x7byAxis: \x7bwidth: 50\x7d\x7d`, the leaf `yAxis.dynamicHeight` of D
is not overridden by O, yet it is absent from the merged result: the
override's `yAxis` subtree replaces the default's wholesale. -/
def defaultsC2 : JObj :=
  [("yAxis", .obj [("width", .num 15), ("dynamicHeight", .bool true)])]

def overridesC2 : JObj := [("yAxis", .obj [("width", .num 50)])]

/-- Counterexample for C2 (see `defaultsC2`). -/
theorem extend_not_deep :
    jget (.obj defaultsC2) ["yAxis", "dynamicHeight"] = some (.bool true) ∧
    jget (.obj overridesC2) ["yAxis", "dynamicHeight"] = none ∧
    jget (.obj (extend defaultsC2 overridesC2)) ["yAxis", "dynamicHeight"]
      = none ∧
    jget (.obj (extend defaultsC2 overridesC2)) ["yAxis", "width"]
      = some (.num 50) :=
  ⟨rfl, rfl, rfl, rfl⟩

/-- C2 amended: `util.extend` merges at the top level only.  For every key,
the override's value is taken when present (replacing the default's value
wholesale, nested trees included), else the default's value is kept; in
particular every top-level key of the defaults survives unless overridden.
Deep recursive merging is obtained by d3.ganttChart.init only through the
external jQuery call, which is not part of this repository. -/
theorem extend_shallow_merge (D O : JObj)
    (hD : (D.map Prod.fst).Nodup) (hO : (O.map Prod.fst).Nodup) :
    (∀ k v, jlookup O k = some v → jlookup (extend D O) k = some v) ∧
    (∀ k, jlookup O k = none → jlookup (extend D O) k = jlookup D k) := by
  constructor
  · intro k v hk
    rw [jlookup_extend D O k hD hO, hk]
  · intro k hk
    rw [jlookup_extend D O k hD hO, hk]

/-- Witness for the amended C2 at the counterexample configuration. -/
theorem extend_shallow_merge_witness :
    jlookup (extend defaultsC2 overridesC2) "yAxis"
      = some (.obj [("width", .num 50)]) :=
  (extend_shallow_merge defaultsC2 overridesC2 (by decide) (by decide)).1
    "yAxis" _ rfl

/-- C3: `util.extend` mutates neither of the caller's argument objects and
returns a newly built object.  Run over an explicit heap, the call leaves
every pre-existing address (in particular both arguments) unchanged and
returns a fresh address that did not exist before the call. -/
theorem extend_no_mutation (h : ObjHeap) (o1 o2 : Nat)
    (_ho1 : o1 < h.length) (_ho2 : o2 < h.length) :
    (∀ b, b < h.length → ((extendH h o1 o2).1)[b]? = h[b]?) ∧
    (extendH h o1 o2).2 = h.length ∧
    h[(extendH h o1 o2).2]? = none := by
  refine ⟨?_, rfl, List.getElem?_eq_none (le_refl _)⟩
  intro b hb
  have hbne : b ≠ h.length := Nat.ne_of_lt hb
  simp only [extendH]
  rw [foldl_writeKeyH_frame _ _ _ _ hbne, foldl_writeKeyH_frame _ _ _ _ hbne,
    List.getElem?_append_left hb]

/-- Witness for C3 on a two-object heap. -/
theorem extend_no_mutation_witness :
    (∀ b, b < 2 →
      ((extendH [[("a", JVal.num 1)], [("a", JVal.num 2)]] 0 1).1)[b]? =
        [[("a", JVal.num 1)], [("a", JVal.num 2)]][b]?) ∧
    (extendH [[("a", JVal.num 1)], [("a", JVal.num 2)]] 0 1).2 = 2 ∧
    [[("a", JVal.num 1)], [("a", JVal.num 2)]][(extendH [[("a", JVal.num 1)],
      [("a", JVal.num 2)]] 0 1).2]? = none :=
  extend_no_mutation [[("a", JVal.num 1)], [("a", JVal.num 2)]] 0 1
    (by decide) (by decide)

/-- C9: for a non-empty data array, `init` reorders the caller's array
object in place: after `init` the heap cell the configuration's `data`
reference points at -- the very array the caller passed in -- holds a
permutation of its old contents sorted ascending by event start timestamp,
while every other heap cell is untouched. -/
theorem init_sorts_data_in_place (h : ArrHeap) (d p : JObj) (a : Nat)
    (l : List Event) (hdata : jlookup (extend d p) "data" = some (.ref a))
    (ha : a < h.length) (hl : h.getD a [] = l) (hne : l ≠ []) :
    ((init h d p).1)[a]? = some (sortByStart (sortByEnd l)) ∧
    List.Perm (sortByStart (sortByEnd l)) l ∧
    (sortByStart (sortByEnd l)).Pairwise (fun x y => x.start ≤ y.start) ∧
    (∀ b, b ≠ a → ((init h d p).1)[b]? = h[b]?) := by
  rw [init_eq_of_data h d p a l hdata hl hne]
  refine ⟨?_, (sortByStart_perm _).trans (sortByEnd_perm l), sortByStart_sorted _, ?_⟩
  · exact List.getElem?_set_self (by simpa using ha)
  · intro b hb
    rw [List.getElem?_set_ne (fun hc => hb hc.symm),
      List.getElem?_set_ne (fun hc => hb hc.symm)]

def dataC9 : List Event :=
  [{ activity := "John", start := 9, endT := 17 },
   { activity := "Jane", start := 7, endT := 15 }]

/-- Witness for C9: a two-element unsorted array is sorted in place. -/
theorem init_sorts_data_in_place_witness :
    ((init [dataC9] defaultsC1 []).1)[0]? =
        some (sortByStart (sortByEnd dataC9)) ∧
    List.Perm (sortByStart (sortByEnd dataC9)) dataC9 ∧
    (sortByStart (sortByEnd dataC9)).Pairwise (fun x y => x.start ≤ y.start) ∧
    (∀ b, b ≠ 0 → ((init [dataC9] defaultsC1 []).1)[b]? =
      ([dataC9] : ArrHeap)[b]?) :=
  init_sorts_data_in_place [dataC9] defaultsC1 [] 0 dataC9 rfl (by decide)
    rfl (by decide)

/-! ### Typed layout model of d3.ganttChart (src/unnamed/part_001)

Pixel coordinates are rational numbers (the JavaScript floating-point
arithmetic of the source is modelled as exact arithmetic).  The d3-scale
functions `d3.scaleTime` and `d3.scaleBand` and the jQuery helpers are
external dependencies of the repository, not part of its source; they are
modelled after the behaviour the spec describes for `timeScale` and
`rowScale` (spec section 4.2). -/

/-- One row of the y axis (`activities` entry). -/
structure Activity where
  name : String
  description : Option String := none
deriving DecidableEq, Repr, Inhabited

/-- The `yAxis` configuration subtree of d3.ganttChart. -/
structure YAxisParams where
  width : ℚ
  dynamicHeight : Bool
  elementHeight : ℚ
deriving Repr

/-- The `xAxis` configuration subtree of d3.ganttChart.  `interval` is the
user-configured d3 interval generator: its `range` method maps a domain to
the list of tick timestamps, and is kept opaque exactly as the source
treats it.  The label formatting options (format, rotation, dx, dy) are
pass-through display settings with no layout content and are not
modelled. -/
structure XAxisParams where
  height : ℚ
  dynamicWidth : Bool
  tickDistance : ℚ
  interval : Int → Int → List Int

/-- The resolved configuration `this.params` of d3.ganttChart. -/
structure GanttParams where
  node : String
  width : ℚ
  height : ℚ
  activities : List Activity
  data : List Event
  startTime : Int
  endTime : Int
  yAxis : YAxisParams
  xAxis : XAxisParams

/-- Clamping of an input timestamp to the scale domain, as d3-scale does
for a continuous scale with `.clamp(true)` (ordering the two domain ends
first). -/
def clampTime (t a b : Int) : Int :=
  if a ≤ b then max a (min b t) else max b (min a t)

/-- Modelled from the spec: `xAxisScale` (src/unnamed/part_001 lines
187-192) returns `d3.scaleTime().domain([startTime, endTime]).range([0,
width]).clamp(true)`; the d3-scale library is an external dependency, so
the scale it builds is modelled as the clamped linear interpolation of
spec section 4.2.  In the degenerate case of a zero-length domain the
model keeps d3's actual behaviour, the constant `width / 2` (d3's
`normalize` returns the constant 1/2 when the domain has zero length); the
spec requires only that some constant is returned. -/
def timeScale (a b : Int) (w : ℚ) (t : Int) : ℚ :=
  if a = b then w / 2
  else (((clampTime t a b : Int) : ℚ) - (a : ℚ)) / ((b : ℚ) - (a : ℚ)) * w

/-- The x-axis scale of the chart, applied to a timestamp. -/
def xAxisScale (p : GanttParams) (t : Int) : ℚ :=
  timeScale p.startTime p.endTime p.width t

/-- Modelled from the spec: band height of
`d3.scaleBand().domain(names).range([0, height])` with the default zero
paddings; d3 divides the range length by `max 1 n`. -/
def bandwidth (names : List String) (h : ℚ) : ℚ :=
  h / ((max 1 names.length : ℕ) : ℚ)

/-- Modelled from the spec: band start position of a name under
`d3.scaleBand().domain(names).range([0, height])`: the k-th distinct
domain value is placed at `k * bandwidth`; a name outside the domain maps
to `undefined` (`none`).  Activity names are unique row keys (spec
section 3). -/
def bandStart (names : List String) (h : ℚ) (name : String) : Option ℚ :=
  if name ∈ names then some ((names.indexOf name : ℕ) * bandwidth names h)
  else none

/-- The y-axis scale of the chart (src/unnamed/part_001 lines 199-203),
applied to an activity name. -/
def yAxisScale (p : GanttParams) (name : String) : Option ℚ :=
  bandStart (p.activities.map Activity.name) p.height name

/-- Element width (src/unnamed/part_001 lines 212-214):
`xAxisScale(elem.end) - xAxisScale(elem.start)`. -/
def elementWidth (p : GanttParams) (e : Event) : ℚ :=
  xAxisScale p e.endT - xAxisScale p e.start

/-- Element position (src/unnamed/part_001 lines 178-180):
`translate(xAxisScale(elem.start), yAxisScale(elem.activity))`.  The y
component is `none` (the string rendering of `undefined`) when the
activity name is outside the y-scale domain; the source performs the
lookup unguarded. -/
def elementTranslate (p : GanttParams) (e : Event) : ℚ × Option ℚ :=
  (xAxisScale p e.start, yAxisScale p e.activity)

/-- Geometry and style of one drawn bar. -/
structure DrawRect where
  x : ℚ
  y : Option ℚ
  width : ℚ
  height : ℚ
  fill : Option String
  stroke : Option String
deriving Repr

/-- The bar rectangles emitted by `draw` (src/unnamed/part_001 lines
140-159): one `g`/`rect` pair is appended per data element, with the
translate of `elementTranslate`, width `elementWidth`, height
`params.yAxis.elementHeight`, and the optional fill and stroke colors of
the element.  No element is filtered out or validated. -/
def drawElements (p : GanttParams) : List DrawRect :=
  p.data.map (fun e =>
    { x := (elementTranslate p e).1
      y := (elementTranslate p e).2
      width := elementWidth p e
      height := p.yAxis.elementHeight
      fill := e.fillColor
      stroke := e.strokeColor })

/-- The dimension recomputation at the start of `draw`
(src/unnamed/part_001 lines 108-118): with `yAxis.dynamicHeight` the
height becomes `yAxis.elementHeight * activities.length`; with
`xAxis.dynamicWidth` the width becomes `xAxis.tickDistance *
interval.range(startTime, endTime).length`. -/
def computeDimensions (p : GanttParams) : GanttParams :=
  let p₁ :=
    if p.yAxis.dynamicHeight then
      { p with height := p.yAxis.elementHeight * (p.activities.length : ℚ) }
    else p
  if p₁.xAxis.dynamicWidth then
    { p₁ with
      width := p₁.xAxis.tickDistance *
        ((p₁.xAxis.interval p₁.startTime p₁.endTime).length : ℚ) }
  else p₁

/-- The configuration write in `drawYAxis` (src/unnamed/part_001 line
295): `this.params.yAxis.elementHeight = this.yAxisScale().bandwidth()`. -/
def drawYAxisUpdate (p : GanttParams) : GanttParams :=
  { p with yAxis :=
    { p.yAxis with
      elementHeight := bandwidth (p.activities.map Activity.name) p.height } }

theorem bandwidth_eq (names : List String) (h : ℚ) (hne : names ≠ []) :
    bandwidth names h = h / (names.length : ℚ) := by
  unfold bandwidth
  rw [Nat.max_eq_right (Nat.one_le_iff_ne_zero.2
    (fun hc => hne (List.length_eq_zero.1 hc)))]

/-! ### Claims about the layout computations -/

/-- C4: for every domain with `startTime < endTime` and every width, the
time scale is the clamped linear map from the domain onto `[0, width]`:
timestamps before the domain map to 0, after it to `width`, inside it to
the linear interpolation; and for `startTime = endTime` the scale is the
same constant for every input instead of dividing by zero. -/
theorem timeScale_clamped_linear (a b : Int) (w : ℚ) :
    (a < b → ∀ t : Int,
      (t < a → timeScale a b w t = 0) ∧
      (b < t → timeScale a b w t = w) ∧
      (a ≤ t → t ≤ b →
        timeScale a b w t = ((t : ℚ) - (a : ℚ)) / ((b : ℚ) - (a : ℚ)) * w)) ∧
    (∀ t₁ t₂ : Int, timeScale a a w t₁ = timeScale a a w t₂) := by
  constructor
  · intro hab t
    have hne : a ≠ b := Int.ne_of_lt hab
    have hba : (b : ℚ) - (a : ℚ) ≠ 0 := by
      rw [sub_ne_zero]
      exact_mod_cast hne.symm
    refine ⟨?_, ?_, ?_⟩
    · intro ht
      have hcl : clampTime t a b = a := by
        unfold clampTime
        rw [if_pos hab.le]
        omega
      rw [timeScale, if_neg hne, hcl]
      simp
    · intro ht
      have hcl : clampTime t a b = b := by
        unfold clampTime
        rw [if_pos hab.le]
        omega
      rw [timeScale, if_neg hne, hcl, div_self hba, one_mul]
    · intro h₁ h₂
      have hcl : clampTime t a b = t := by
        unfold clampTime
        rw [if_pos hab.le]
        omega
      rw [timeScale, if_neg hne, hcl]
  · intro t₁ t₂
    simp [timeScale]

/-- Witness for C4 at the domain [0, 10], width 100. -/
theorem timeScale_clamped_linear_witness :
    timeScale 0 10 100 (-3) = 0 ∧ timeScale 0 10 100 25 = 100 ∧
    timeScale 0 10 100 5 = ((5 : ℚ) - 0) / ((10 : ℚ) - 0) * 100 ∧
    timeScale 7 7 33 (-100) = timeScale 7 7 33 100 := by
  obtain ⟨hmain, hconst⟩ := timeScale_clamped_linear 0 10 100
  refine ⟨(hmain (by decide) (-3)).1 (by decide),
    (hmain (by decide) 25).2.1 (by decide),
    (hmain (by decide) 5).2.2 (by decide) (by decide), ?_⟩
  exact (timeScale_clamped_linear 7 7 33).2 (-100) 100

/-- C5: `computeDimensions` uses `yAxis.elementHeight * count(activities)`
as the height exactly when `yAxis.dynamicHeight` is set (ignoring the
configured height), uses `xAxis.tickDistance *` (number of ticks the
configured interval generator produces over the domain) as the width
exactly when `xAxis.dynamicWidth` is set, and keeps the configured height
and width unchanged when the respective flag is disabled. -/
theorem computeDimensions_spec (p : GanttParams) :
    (p.yAxis.dynamicHeight = true →
      (computeDimensions p).height =
        p.yAxis.elementHeight * (p.activities.length : ℚ)) ∧
    (p.yAxis.dynamicHeight = false →
      (computeDimensions p).height = p.height) ∧
    (p.xAxis.dynamicWidth = true →
      (computeDimensions p).width =
        p.xAxis.tickDistance *
          ((p.xAxis.interval p.startTime p.endTime).length : ℚ)) ∧
    (p.xAxis.dynamicWidth = false →
      (computeDimensions p).width = p.width) := by
  unfold computeDimensions
  rcases hy : p.yAxis.dynamicHeight <;> rcases hx : p.xAxis.dynamicWidth <;>
    simp [hy, hx]

/-- Concrete configuration for the C5 witness: 3 activities, element
height 50, a static height of 9999 that must be ignored, and an interval
generator producing 4 ticks. -/
def paramsC5 : GanttParams :=
  { node := "#gantt"
    width := 200
    height := 9999
    activities := [{ name := "John" }, { name := "Jane" }, { name := "Bob" }]
    data := []
    startTime := 0
    endTime := 60
    yAxis := { width := 15, dynamicHeight := true, elementHeight := 50 }
    xAxis := { height := 35, dynamicWidth := true, tickDistance := 50,
               interval := fun a b => [a, (a + b) / 3, 2 * (a + b) / 3, b] } }

/-- Witness for C5: height 150 = 50 * 3 regardless of the configured 9999,
width 200 = 50 * 4 ticks. -/
theorem computeDimensions_spec_witness :
    (computeDimensions paramsC5).height = 150 ∧
    (computeDimensions paramsC5).width = 200 := by
  obtain ⟨hh, _, hw, _⟩ := computeDimensions_spec paramsC5
  constructor
  · rw [hh rfl]
    norm_num [paramsC5]
  · rw [hw rfl]
    norm_num [paramsC5]

/-- C6: for every non-empty activity list with distinct names and every
height, the row scale partitions `[0, height]` into `n` contiguous equal
bands in list order: the k-th name is mapped to band start
`k * (height / n)`, the band height is exactly `height / n`, band 0 starts
at 0, each band ends where the next begins, and the n bands end exactly at
`height` (no gaps, no overlaps). -/
theorem yAxisScale_partition (p : GanttParams)
    (hnd : (p.activities.map Activity.name).Nodup)
    (hne : p.activities ≠ []) :
    (∀ k (hk : k < (p.activities.map Activity.name).length),
      yAxisScale p ((p.activities.map Activity.name).get ⟨k, hk⟩) =
        some ((k : ℚ) * (p.height / (p.activities.length : ℚ)))) ∧
    bandwidth (p.activities.map Activity.name) p.height =
      p.height / (p.activities.length : ℚ) ∧
    (0 : ℚ) * (p.height / (p.activities.length : ℚ)) = 0 ∧
    (∀ k : ℕ, ((k : ℚ) + 1) * (p.height / (p.activities.length : ℚ)) =
      (k : ℚ) * (p.height / (p.activities.length : ℚ)) +
        p.height / (p.activities.length : ℚ)) ∧
    (p.activities.length : ℚ) * (p.height / (p.activities.length : ℚ)) =
      p.height := by
  have hne' : p.activities.map Activity.name ≠ [] := by
    simpa using hne
  have hn : (p.activities.length : ℚ) ≠ 0 := by
    exact_mod_cast fun hc => hne (List.length_eq_zero.1 (by exact_mod_cast hc))
  have hbw : bandwidth (p.activities.map Activity.name) p.height =
      p.height / (p.activities.length : ℚ) := by
    rw [bandwidth_eq _ _ hne']
    simp
  refine ⟨?_, hbw, zero_mul _, fun k => by ring, ?_⟩
  · intro k hk
    unfold yAxisScale bandStart
    rw [if_pos (List.get_mem _ k hk)]
    rw [List.get_eq_getElem,
      List.indexOf_getElem hnd k (by simpa using hk), hbw]
  · rw [mul_comm, div_mul_cancel₀ _ hn]

def paramsC6 : GanttParams :=
  { paramsC5 with height := 150, activities := paramsC5.activities }

/-- Witness for C6 on the three-activity configuration of height 150. -/
theorem yAxisScale_partition_witness :
    (∀ k (hk : k < (paramsC6.activities.map Activity.name).length),
      yAxisScale paramsC6 ((paramsC6.activities.map Activity.name).get ⟨k, hk⟩) =
        some ((k : ℚ) * (paramsC6.height / (paramsC6.activities.length : ℚ)))) ∧
    bandwidth (paramsC6.activities.map Activity.name) paramsC6.height =
      paramsC6.height / (paramsC6.activities.length : ℚ) ∧
    (0 : ℚ) * (paramsC6.height / (paramsC6.activities.length : ℚ)) = 0 ∧
    (∀ k : ℕ, ((k : ℚ) + 1) * (paramsC6.height / (paramsC6.activities.length : ℚ)) =
      (k : ℚ) * (paramsC6.height / (paramsC6.activities.length : ℚ)) +
        paramsC6.height / (paramsC6.activities.length : ℚ)) ∧
    (paramsC6.activities.length : ℚ) *
        (paramsC6.height / (paramsC6.activities.length : ℚ)) =
      paramsC6.height :=
  yAxisScale_partition paramsC6 (by decide) (by decide)

/-- C7: for every event with `start <= end`, the laid-out bar width
`timeScale(event.end) - timeScale(event.start)` is non-negative, also when
the event lies partly or wholly outside the (well-formed, non-negative
width) time domain: the clamped scale is monotone. -/
theorem elementWidth_nonneg (p : GanttParams) (e : Event)
    (hd : p.startTime ≤ p.endTime) (hw : 0 ≤ p.width)
    (he : e.start ≤ e.endT) :
    0 ≤ elementWidth p e := by
  unfold elementWidth xAxisScale
  rcases eq_or_lt_of_le hd with heq | hlt
  · simp [timeScale, heq]
  · have hne : p.startTime ≠ p.endTime := Int.ne_of_lt hlt
    have hpos : (0 : ℚ) < (p.endTime : ℚ) - (p.startTime : ℚ) := by
      rw [sub_pos]
      exact_mod_cast hlt
    have hcle : clampTime e.start p.startTime p.endTime ≤
        clampTime e.endT p.startTime p.endTime := by
      unfold clampTime
      rw [if_pos hlt.le, if_pos hlt.le]
      omega
    rw [timeScale, timeScale, if_neg hne, if_neg hne, sub_nonneg]
    apply mul_le_mul_of_nonneg_right _ hw
    apply (div_le_div_iff_of_pos_right hpos).2
    apply sub_le_sub_right
    exact_mod_cast hcle

/-- Concrete event for the C7 witness: it starts before the domain and
ends after it. -/
def eventC7 : Event := { activity := "John", start := -100, endT := 100 }

/-- Witness for C7: the bar of an event crossing the whole domain has
non-negative width. -/
theorem elementWidth_nonneg_witness : 0 ≤ elementWidth paramsC5 eventC7 :=
  elementWidth_nonneg paramsC5 eventC7 (by decide) (by norm_num [paramsC5])
    (by decide)

/-- Concrete configuration for C8: one known activity and one event whose
activity name matches nothing. -/
def paramsC8 : GanttParams :=
  { node := "#gantt"
    width := 200
    height := 200
    activities := [{ name := "John" }]
    data := [{ activity := "Ghost", start := 0, endT := 1 }]
    startTime := 0
    endTime := 10
    yAxis := { width := 15, dynamicHeight := true, elementHeight := 50 }
    xAxis := { height := 35, dynamicWidth := false, tickDistance := 50,
               interval := fun _ _ => [] } }

/-- Counterexample for C8: the event referencing the unknown activity
"Ghost" is NOT rejected -- no error is raised anywhere in the layout, and
`draw` still emits exactly one bar rectangle for it; its y position is the
JavaScript `undefined` (the unguarded band lookup misses), not an
`UnknownActivityError`. -/
theorem unknown_activity_rect_emitted :
    ("Ghost" ∈ paramsC8.activities.map Activity.name → False) ∧
    (drawElements paramsC8).length = 1 ∧
    (drawElements paramsC8).map DrawRect.y = [none] := by
  refine ⟨by decide, rfl, rfl⟩

/-- C8 amended: an event whose activity matches no configured activity
name is silently kept: the row lookup yields `undefined` (`none`), and the
draw pass still emits a rectangle for every data element, the unknown one
included -- nothing fails fast and nothing is dropped.  (The spec itself
flags in its section 9 that the source does not guard this case; the
fail-fast `UnknownActivityError` policy is the spec's recommendation, not
the code's behaviour.) -/
theorem unknown_activity_drawn (p : GanttParams) (e : Event)
    (hmem : e ∈ p.data)
    (hunknown : e.activity ∉ p.activities.map Activity.name) :
    (elementTranslate p e).2 = none ∧
    (drawElements p).length = p.data.length ∧
    ({ x := (elementTranslate p e).1, y := none, width := elementWidth p e,
       height := p.yAxis.elementHeight, fill := e.fillColor,
       stroke := e.strokeColor } : DrawRect) ∈ drawElements p := by
  have h₂ : (elementTranslate p e).2 = none := by
    unfold elementTranslate yAxisScale bandStart
    simp [hunknown]
  refine ⟨h₂, by simp [drawElements], ?_⟩
  unfold drawElements
  refine List.mem_map.2 ⟨e, hmem, ?_⟩
  rw [h₂]

/-- Witness for the amended C8 at the concrete configuration. -/
theorem unknown_activity_drawn_witness :
    (elementTranslate paramsC8
      { activity := "Ghost", start := 0, endT := 1 }).2 = none ∧
    (drawElements paramsC8).length = paramsC8.data.length ∧
    ({ x := (elementTranslate paramsC8
        { activity := "Ghost", start := 0, endT := 1 }).1, y := none,
       width := elementWidth paramsC8
        { activity := "Ghost", start := 0, endT := 1 },
       height := paramsC8.yAxis.elementHeight, fill := none,
       stroke := none } : DrawRect) ∈ drawElements paramsC8 :=
  unknown_activity_drawn paramsC8 { activity := "Ghost", start := 0, endT := 1 }
    (by decide) (by decide)

/-- C10: every execution of `drawYAxis` overwrites the configured
`yAxis.elementHeight` with the computed band height, chart height divided
by the number of activities -- whatever value was stored before (so the
stored value no longer equals the user-supplied one unless they coincide);
a subsequent draw then uses the overwritten value both as the bar
rectangle height and in the dynamic-height computation. -/
theorem drawYAxis_overwrites_elementHeight (p : GanttParams)
    (hne : p.activities ≠ []) :
    (drawYAxisUpdate p).yAxis.elementHeight =
        p.height / (p.activities.length : ℚ) ∧
    (∀ v : ℚ,
      (drawYAxisUpdate
        { p with yAxis := { p.yAxis with elementHeight := v } }).yAxis.elementHeight =
        p.height / (p.activities.length : ℚ)) ∧
    (p.yAxis.dynamicHeight = true →
      (computeDimensions (drawYAxisUpdate p)).height =
        p.height / (p.activities.length : ℚ) * (p.activities.length : ℚ)) ∧
    (∀ r ∈ drawElements (drawYAxisUpdate p),
      r.height = p.height / (p.activities.length : ℚ)) := by
  have hne' : p.activities.map Activity.name ≠ [] := by simpa using hne
  have hbw : bandwidth (p.activities.map Activity.name) p.height =
      p.height / (p.activities.length : ℚ) := by
    rw [bandwidth_eq _ _ hne']
    simp
  refine ⟨by simp [drawYAxisUpdate, hbw], ?_, ?_, ?_⟩
  · intro v
    simp [drawYAxisUpdate, bandwidth_eq _ _ hne']
  · intro hy
    rcases hx : p.xAxis.dynamicWidth <;>
      simp [computeDimensions, drawYAxisUpdate, hy, hx, hbw]
  · intro r hr
    obtain ⟨e, _, he⟩ := List.mem_map.1 hr
    rw [← he]
    simp [drawYAxisUpdate, hbw]

/-- Witness for C10: with height 150 and 3 activities the stored element
height becomes 50 whatever it was, and the next dynamic-height pass yields
150 again. -/
theorem drawYAxis_overwrites_elementHeight_witness :
    (drawYAxisUpdate paramsC6).yAxis.elementHeight =
        paramsC6.height / (paramsC6.activities.length : ℚ) ∧
    (∀ v : ℚ,
      (drawYAxisUpdate
        { paramsC6 with yAxis :=
          { paramsC6.yAxis with elementHeight := v } }).yAxis.elementHeight =
        paramsC6.height / (paramsC6.activities.length : ℚ)) ∧
    (paramsC6.yAxis.dynamicHeight = true →
      (computeDimensions (drawYAxisUpdate paramsC6)).height =
        paramsC6.height / (paramsC6.activities.length : ℚ) *
          (paramsC6.activities.length : ℚ)) ∧
    (∀ r ∈ drawElements (drawYAxisUpdate paramsC6),
      r.height = paramsC6.height / (paramsC6.activities.length : ℚ)) :=
  drawYAxis_overwrites_elementHeight paramsC6 (by decide)

end D3Gantt
